import Mathlib

/-!
Shallow embedding of `src/rss.py` (repository `scraper_simples`).

The script polls RSS feed URLs, filters entries published since the previous
day's midnight against a keyword list, strips HTML from summaries and writes
matches to a dated report file.  The embedding models:

* `PyDateTime` — Python `datetime` values restricted to the six fields the
  script constructs (`datetime(*entry.published_parsed[:6])`), compared
  lexicographically as Python compares naive datetimes;
* a model of Python `re` (pattern parser + unanchored `re.search`) covering
  the core syntax: literals, escapes, character classes, `.`, `*`, `+`, `?`
  (with the lazy `?` suffix), alternation, `(...)` and `(?:...)` groups and
  the anchors `^`, `$`, `\b`, `\B`.  Counted repeats `{m,n}` are treated as
  literal braces and extension groups other than `(?:...)` are rejected;
  syntactically ill-formed patterns (unbalanced parentheses, unterminated
  classes, dangling repeats, bad escapes) yield an error, as `re.compile`
  raises `re.error`;
* a model of `BeautifulSoup(...).get_text()` and `html.unescape` sufficient
  for `clean_html`: tags `<...>` (a `<` opens a tag only when followed by a
  letter, `/`, `!` or `?`, as in `html.parser`) are dropped and character
  references are decoded during parsing, and `unescape` decodes character
  references once more;
* the entry filter `get_recent_entries`, the keyword loader `read_keywords`
  and the orchestrator `process_rss_file`, with the filesystem, network and
  clock supplied explicitly through a `World` record.  Python exceptions are
  modelled with `Except`.
-/

namespace RSS

/-- The six datetime fields built by `datetime(*entry.published_parsed[:6])`. -/
structure PyDateTime where
  year : Nat
  month : Nat
  day : Nat
  hour : Nat
  minute : Nat
  second : Nat
deriving DecidableEq, Repr

/-- Three-way comparison on `Nat` (explicit, so proofs do not depend on the
`Ord` instance's definitional details). -/
def cmpNat (a b : Nat) : Ordering :=
  if a < b then .lt else if b < a then .gt else .eq

/-- Python compares naive `datetime` values lexicographically by field. -/
def PyDateTime.cmp (a b : PyDateTime) : Ordering :=
  (cmpNat a.year b.year).then <| (cmpNat a.month b.month).then <|
    (cmpNat a.day b.day).then <| (cmpNat a.hour b.hour).then <|
      (cmpNat a.minute b.minute).then (cmpNat a.second b.second)

/-- `a >= b` on datetimes, as used by `if pub_date >= start_time`. -/
def dtGe (a b : PyDateTime) : Bool :=
  match PyDateTime.cmp a b with
  | .lt => false
  | _ => true

/-- `a < b` on datetimes (strictly before). -/
def dtLt (a b : PyDateTime) : Bool :=
  match PyDateTime.cmp a b with
  | .lt => true
  | _ => false

/-- One element of a regex character class `[...]`: a single character, a
range `a-z`, or a perl shorthand (`\d`, `\w`, `\s` and their negations). -/
inductive ClassItem where
  | one (c : Char)
  | range (a b : Char)
  | perl (c : Char)

/-- Abstract syntax of the modelled fragment of Python regexes.  `+`, `?` and
lazy variants are desugared at parse time. -/
inductive Regex where
  | eps
  | chr (c : Char)
  | any
  | cls (neg : Bool) (items : List ClassItem)
  | cat (r s : Regex)
  | alt (r s : Regex)
  | star (r : Regex)
  | bos
  | eos
  | wordB
  | nonWordB

def isWordChar (c : Char) : Bool := c.isAlphanum || c = '_'

def isSpaceChar (c : Char) : Bool :=
  c = ' ' || c = '\t' || c = '\n' || c = '\r' || c = '\x0b' || c = '\x0c'

/-- Does class element `it` accept the character `c`? -/
def ClassItem.mem (it : ClassItem) (c : Char) : Bool :=
  match it with
  | .one a => c = a
  | .range a b => a.val ≤ c.val && c.val ≤ b.val
  | .perl p =>
    if p = 'd' then c.isDigit
    else if p = 'D' then !c.isDigit
    else if p = 'w' then isWordChar c
    else if p = 'W' then !isWordChar c
    else if p = 's' then isSpaceChar c
    else if p = 'S' then !isSpaceChar c
    else false

/-- Structural size of a regex, used to bound the matcher's fuel. -/
def sizeR : Regex → Nat
  | .eps => 1
  | .chr _ => 1
  | .any => 1
  | .cls _ _ => 1
  | .cat r s => sizeR r + sizeR s + 1
  | .alt r s => sizeR r + sizeR s + 1
  | .star r => sizeR r + 1
  | .bos => 1
  | .eos => 1
  | .wordB => 1
  | .nonWordB => 1

/-- Is position `i` at a word boundary of `s` (Python `\b`)? -/
def atWordBoundary (s : List Char) (i : Nat) : Bool :=
  let before := match s[i - 1]? with
    | some c => i ≠ 0 && isWordChar c
    | none => false
  let after := match s[i]? with
    | some c => isWordChar c
    | none => false
  before != after

/-- Backtracking matcher in continuation style.  `matchR fuel s r i k` asks
whether `r` can match some segment of `s` starting at position `i` such that
the continuation `k` accepts the end position.  A star only re-enters its body
after consuming at least one character, and `fuel` bounds the call depth
(`matchFuel` below is a safe overapproximation, so well-formed calls never
exhaust it). -/
def matchR : Nat → List Char → Regex → Nat → (Nat → Bool) → Bool
  | 0, _, _, _, _ => false
  | fuel + 1, s, r, i, k =>
    match r with
    | .eps => k i
    | .chr c =>
      match s[i]? with
      | some c2 => c2 = c && k (i + 1)
      | none => false
    | .any =>
      match s[i]? with
      | some c2 => c2 ≠ '\n' && k (i + 1)
      | none => false
    | .cls neg items =>
      match s[i]? with
      | some c2 => (if neg then !(items.any (·.mem c2)) else items.any (·.mem c2)) && k (i + 1)
      | none => false
    | .cat r1 r2 => matchR fuel s r1 i (fun j => matchR fuel s r2 j k)
    | .alt r1 r2 => matchR fuel s r1 i k || matchR fuel s r2 i k
    | .star r1 =>
      k i || matchR fuel s r1 i (fun j => if i < j then matchR fuel s (.star r1) j k else false)
    | .bos => i = 0 && k i
    | .eos => i = s.length && k i
    | .wordB => atWordBoundary s i && k i
    | .nonWordB => !atWordBoundary s i && k i

def matchFuel (r : Regex) (n : Nat) : Nat := (sizeR r + 2) * (n + 2) * 2

/-- Unanchored search, as `re.search`: try a match starting at every position
of the target (anchors still refer to the absolute string limits). -/
def searchFrom (r : Regex) (s : String) : Bool :=
  let cs := s.data
  (List.range (cs.length + 1)).any fun i =>
    matchR (matchFuel r cs.length) cs r i (fun _ => true)

def isRep (c : Char) : Bool := c = '*' || c = '+' || c = '?'

/-- Desugar a repeat operator applied to `r`. -/
def applyRep (r : Regex) (c : Char) : Regex :=
  if c = '*' then .star r
  else if c = '+' then .cat r (.star r)
  else .alt r .eps

def isPerlClass (c : Char) : Bool :=
  c = 'd' || c = 'D' || c = 'w' || c = 'W' || c = 's' || c = 'S'

/-- Decode a single-character escape (`\n`, `\t`, ...).  `none` means the
escape is not one of the modelled control escapes. -/
def controlEscape (c : Char) : Option Char :=
  if c = 'n' then some '\n'
  else if c = 't' then some '\t'
  else if c = 'r' then some '\r'
  else if c = 'f' then some '\x0c'
  else if c = 'v' then some '\x0b'
  else if c = 'a' then some '\x07'
  else none

/-- Parse the items of a character class after the opening `[` (and after an
optional leading `^` and a leading literal `]`, which the caller consumes).
Returns the items and the input after the closing `]`; errors on an
unterminated class or a bad escape, as `re.compile` raises. -/
def parseClassItems (fuel : Nat) (cs : List Char) : Except Unit (List ClassItem × List Char) :=
  match fuel with
  | 0 => .error ()
  | fuel + 1 =>
    match cs with
    | [] => .error ()
    | ']' :: rest => .ok ([], rest)
    | '\\' :: rest =>
      match rest with
      | [] => .error ()
      | e :: rest2 =>
        if isPerlClass e then do
          let (items, rest3) ← parseClassItems fuel rest2
          .ok (ClassItem.perl e :: items, rest3)
        else
          match controlEscape e with
          | some c => do
            let (items, rest3) ← parseClassItems fuel rest2
            .ok (ClassItem.one c :: items, rest3)
          | none =>
            if e.isAlphanum then .error ()
            else do
              let (items, rest3) ← parseClassItems fuel rest2
              .ok (ClassItem.one e :: items, rest3)
    | a :: rest =>
      match rest with
      | '-' :: b :: rest2 =>
        if b = ']' then do
          -- `[a-]`: the `-` is a literal; continue at the `-`.
          let (items, rest3) ← parseClassItems fuel ('-' :: b :: rest2)
          .ok (ClassItem.one a :: items, rest3)
        else if b = '\\' then .error ()
        else do
          let (items, rest3) ← parseClassItems fuel rest2
          .ok (ClassItem.range a b :: items, rest3)
      | _ => do
        let (items, rest3) ← parseClassItems fuel rest
        .ok (ClassItem.one a :: items, rest3)

mutual

/-- `alt := cat ('|' alt)?` -/
def parseAltR (fuel : Nat) (cs : List Char) : Except Unit (Regex × List Char) :=
  match fuel with
  | 0 => .error ()
  | fuel + 1 => do
    let (r, rest) ← parseCatR fuel cs
    match rest with
    | '|' :: rest2 => do
      let (r2, rest3) ← parseAltR fuel rest2
      .ok (Regex.alt r r2, rest3)
    | _ => .ok (r, rest)

/-- `cat := repeat*`; stops at `|`, `)` or the end of the pattern. -/
def parseCatR (fuel : Nat) (cs : List Char) : Except Unit (Regex × List Char) :=
  match fuel with
  | 0 => .error ()
  | fuel + 1 =>
    match cs with
    | [] => .ok (Regex.eps, [])
    | c :: _ =>
      if c = '|' || c = ')' then .ok (Regex.eps, cs)
      else do
        let (r, rest) ← parsePostR fuel cs
        let (r2, rest2) ← parseCatR fuel rest
        .ok (Regex.cat r r2, rest2)

/-- An atom followed by at most one repeat operator, itself optionally
followed by a lazy `?`; a further repeat operator is an error
(`re.error: multiple repeat`). -/
def parsePostR (fuel : Nat) (cs : List Char) : Except Unit (Regex × List Char) :=
  match fuel with
  | 0 => .error ()
  | fuel + 1 => do
    let (r, rest) ← parseAtomR fuel cs
    match rest with
    | [] => .ok (r, rest)
    | c :: rest2 =>
      if isRep c then
        let r2 := applyRep r c
        match rest2 with
        | '?' :: rest3 =>
          match rest3 with
          | c3 :: _ => if isRep c3 then .error () else .ok (r2, rest3)
          | [] => .ok (r2, rest3)
        | c2 :: _ => if isRep c2 then .error () else .ok (r2, rest2)
        | [] => .ok (r2, rest2)
      else .ok (r, rest)

/-- A single atom: a group, a class, an escape, an anchor, `.`, or a literal
character.  A repeat operator with nothing to repeat, an unbalanced group, an
extension group other than `(?:...)`, and escapes outside the modelled set
are errors, as in `re.compile`. -/
def parseAtomR (fuel : Nat) (cs : List Char) : Except Unit (Regex × List Char) :=
  match fuel with
  | 0 => .error ()
  | fuel + 1 =>
    match cs with
    | [] => .error ()
    | '(' :: rest =>
      match rest with
      | '?' :: ':' :: rest2 => do
        let (r, rest3) ← parseAltR fuel rest2
        match rest3 with
        | ')' :: rest4 => .ok (r, rest4)
        | _ => .error ()
      | '?' :: _ => .error ()
      | _ => do
        let (r, rest3) ← parseAltR fuel rest
        match rest3 with
        | ')' :: rest4 => .ok (r, rest4)
        | _ => .error ()
    | '[' :: rest => do
      let (neg, rest1) :=
        match rest with
        | '^' :: rest1 => (true, rest1)
        | _ => (false, rest)
      -- a `]` directly after `[` or `[^` is a literal member of the class
      match rest1 with
      | ']' :: rest2 => do
        let (items, rest3) ← parseClassItems fuel rest2
        .ok (Regex.cls neg (ClassItem.one ']' :: items), rest3)
      | _ => do
        let (items, rest3) ← parseClassItems fuel rest1
        .ok (Regex.cls neg items, rest3)
    | '\\' :: rest =>
      match rest with
      | [] => .error ()
      | e :: rest2 =>
        if isPerlClass e then .ok (Regex.cls false [ClassItem.perl e], rest2)
        else if e = 'b' then .ok (Regex.wordB, rest2)
        else if e = 'B' then .ok (Regex.nonWordB, rest2)
        else
          match controlEscape e with
          | some c => .ok (Regex.chr c, rest2)
          | none =>
            if e.isAlphanum then .error ()
            else .ok (Regex.chr e, rest2)
    | '^' :: rest => .ok (Regex.bos, rest)
    | '$' :: rest => .ok (Regex.eos, rest)
    | '.' :: rest => .ok (Regex.any, rest)
    | c :: rest =>
      if isRep c then .error ()
      else .ok (Regex.chr c, rest)

end

/-- `re.compile`: parse a whole pattern; leftover input (an unbalanced `)`)
is an error. -/
def parseRegex (p : String) : Except Unit Regex :=
  match parseAltR (8 * p.length + 32) p.data with
  | .ok (r, []) => .ok r
  | _ => .error ()

/-! ### HTML character references and tag stripping

`clean_html` does `BeautifulSoup(raw, "html.parser").get_text()` followed by
`html.unescape`.  Both steps decode character references; the first one also
drops markup tags.  The decoder models numeric references (`&#d+`,
`&#[xX]h+`, optionally `;`-terminated) and a representative table of named
references (with the semicolon-less variants the HTML5 table contains);
references outside the table are left untouched, as `html.unescape` leaves
unknown entities. -/

def isHexDigitC (c : Char) : Bool :=
  c.isDigit || ('a' ≤ c && c ≤ 'f') || ('A' ≤ c && c ≤ 'F')

def hexDigitVal (c : Char) : Nat :=
  if c.isDigit then c.toNat - '0'.toNat
  else if 'a' ≤ c && c ≤ 'f' then c.toNat - 'a'.toNat + 10
  else c.toNat - 'A'.toNat + 10

def decValue (ds : List Char) : Nat := ds.foldl (fun a c => a * 10 + (c.toNat - '0'.toNat)) 0

def hexValue (ds : List Char) : Nat := ds.foldl (fun a c => a * 16 + hexDigitVal c) 0

/-- Turn a numeric reference's code point into a character; code points that
are not scalar values decode to U+FFFD, as in `html.unescape`. -/
def charOfCode (n : Nat) : Char :=
  if n < 0xD800 ∨ (0xE000 ≤ n ∧ n < 0x110000) then Char.ofNat n else '�'

/-- Does `p` occur at the head of `l`? -/
def leadsWith : List Char → List Char → Bool
  | [], _ => true
  | _ :: _, [] => false
  | p :: ps, c :: cs => p = c && leadsWith ps cs

/-- The modelled named-reference table, longest keys first so that prefix
lookup implements the HTML5 longest-match rule. -/
def namedRefs : List (String × Char) :=
  [("quot;", '"'), ("apos;", '\''), ("nbsp;", ' '),
   ("amp;", '&'), ("quot", '"'), ("nbsp", ' '),
   ("amp", '&'), ("lt;", '<'), ("gt;", '>'), ("lt", '<'), ("gt", '>')]

/-- Try to read one character reference directly after a `&`.  On success,
returns the decoded character and how many characters of `cs` the reference
body consumed. -/
def tryEntity (cs : List Char) : Option (Char × Nat) :=
  match cs with
  | '#' :: rest =>
    match rest with
    | x :: ds =>
      if x = 'x' || x = 'X' then
        let hs := ds.takeWhile isHexDigitC
        if hs.isEmpty then none
        else
          let n := 2 + hs.length
          match ds[hs.length]? with
          | some ';' => some (charOfCode (hexValue hs), n + 1)
          | _ => some (charOfCode (hexValue hs), n)
      else
        let ds2 := rest.takeWhile Char.isDigit
        if ds2.isEmpty then none
        else
          let n := 1 + ds2.length
          match rest[ds2.length]? with
          | some ';' => some (charOfCode (decValue ds2), n + 1)
          | _ => some (charOfCode (decValue ds2), n)
    | [] => none
  | _ =>
    (namedRefs.filter (fun kv => leadsWith kv.1.data cs)).head?.map
      (fun kv => (kv.2, kv.1.length))

/-- Number of characters up to and including the first `>` (the rest of a
markup tag; everything when the tag is unterminated). -/
def tagEnd : List Char → Nat
  | [] => 0
  | c :: cs => if c = '>' then 1 else 1 + tagEnd cs

/-- Does a `<` here open a tag?  `html.parser` starts a tag only at `<`
followed by a letter, `/`, `!` or `?`; otherwise `<` is text. -/
def tagFollows : List Char → Bool
  | c :: _ => c.isAlpha || c = '/' || c = '!' || c = '?'
  | [] => false

/-- One decoding pass over text: drop tags when `stripTags` is set (the
`get_text` step), decode character references, copy everything else.
Decoded characters are not rescanned within a pass.  The recursion is driven
by a fuel counter so the kernel can evaluate it; every step consumes at
least one input character, so any fuel above the input length is enough. -/
def scanHtmlF : Nat → Bool → List Char → List Char
  | 0, _, _ => []
  | fuel + 1, stripTags, l =>
    match l with
    | [] => []
    | c :: cs =>
      if stripTags && (c = '<' && tagFollows cs) then
        scanHtmlF fuel stripTags (cs.drop (tagEnd cs))
      else if c = '&' then
        match tryEntity cs with
        | some (d, n) => d :: scanHtmlF fuel stripTags (cs.drop n)
        | none => c :: scanHtmlF fuel stripTags cs
      else c :: scanHtmlF fuel stripTags cs

/-- One decoding pass, with enough fuel for its input. -/
def scanHtml (stripTags : Bool) (l : List Char) : List Char :=
  scanHtmlF (l.length + 1) stripTags l

/-- `html.unescape`: one entity-decoding pass, tags untouched. -/
def unescape (s : String) : String := ⟨scanHtml false s.data⟩

/-- `BeautifulSoup(raw, "html.parser").get_text()`: markup dropped and
character references decoded during parsing. -/
def getText (s : String) : String := ⟨scanHtml true s.data⟩

/-- `clean_html` from `src/rss.py` lines 53-65: parse with BeautifulSoup,
extract text, then `unescape` the result. -/
def clean_html (raw_html : String) : String := unescape (getText raw_html)

/-! ### Feed entries and the entry filter -/

/-- A feedparser entry as `get_recent_entries` reads it.  `published_parsed`
is `none` when the entry carries no parseable publish timestamp (the
`'published_parsed' in entry` guard fails); `summary` is `none` when the
entry has no summary, in which case the attribute access `entry.summary`
raises `AttributeError`. -/
structure Entry where
  title : String
  link : String
  published_parsed : Option PyDateTime
  summary : Option String
deriving DecidableEq

/-- A parsed feed: the part of the feedparser result the script uses. -/
structure Feed where
  entries : List Entry
deriving DecidableEq

/-- The Python exceptions the filter can raise: `AttributeError` from
`entry.summary` on a summary-less entry, `re.error` from an invalid keyword
pattern. -/
inductive PyErr where
  | attrError
  | reError
deriving DecidableEq, Repr

/-- Attribute access `entry.summary` (line 46): raises on a missing key. -/
def summaryAttr (e : Entry) : Except PyErr String :=
  match e.summary with
  | some s => .ok s
  | none => .error .attrError

/-- Line 48: `entry.summary if 'summary' in entry else 'No summary available'`. -/
def getSummaryDefault (e : Entry) : String :=
  match e.summary with
  | some s => s
  | none => "No summary available"

/-- `any(re.search(keyword, entry_content) for keyword in keywords)`:
the generator is evaluated lazily left to right, stops at the first match
and raises `re.error` when it reaches a pattern that does not compile. -/
def anyMatch : List String → String → Except PyErr Bool
  | [], _ => .ok false
  | k :: rest, content =>
    match parseRegex k with
    | .error _ => .error .reError
    | .ok r => if searchFrom r content then .ok true else anyMatch rest content

/-- The loop body of `get_recent_entries` (lines 40-51), over a list of
entries.  An exception raised for one entry aborts the whole call, as in
Python. -/
def entriesLoop (start_time : PyDateTime) (keywords : List String) :
    List Entry → Except PyErr (List (String × String × String))
  | [] => .ok []
  | e :: rest =>
    match e.published_parsed with
    | none => entriesLoop start_time keywords rest
    | some pub_date =>
      if dtGe pub_date start_time then
        match summaryAttr e with
        | .error err => .error err
        | .ok s =>
          match anyMatch keywords (e.title ++ " " ++ s) with
          | .error err => .error err
          | .ok true =>
            match entriesLoop start_time keywords rest with
            | .error err => .error err
            | .ok l => .ok ((e.title, e.link, clean_html (getSummaryDefault e)) :: l)
          | .ok false => entriesLoop start_time keywords rest
      else entriesLoop start_time keywords rest

/-- `get_recent_entries` from `src/rss.py` lines 28-51. -/
def get_recent_entries (feed : Feed) (start_time : PyDateTime) (keywords : List String) :
    Except PyErr (List (String × String × String)) :=
  entriesLoop start_time keywords feed.entries

/-! Specification-side descriptions the theorems compare the filter to. -/

/-- Is the entry time-eligible: a parseable publish time at or after the
threshold? -/
def eligibleB (e : Entry) (start_time : PyDateTime) : Bool :=
  match e.published_parsed with
  | some pub_date => dtGe pub_date start_time
  | none => false

/-- The search buffer line 46 builds (meaningful when the summary exists). -/
def searchBuf (e : Entry) : String := e.title ++ " " ++ e.summary.getD ""

/-- Does pattern `k` match somewhere in `content` (false if `k` is invalid)? -/
def searchStr (k content : String) : Bool :=
  match parseRegex k with
  | .ok r => searchFrom r content
  | .error _ => false

/-- Does some keyword match the entry's search buffer? -/
def anyMatchB (keywords : List String) (content : String) : Bool :=
  keywords.any fun k => searchStr k content

/-- The tuple stored for an included entry (lines 48-50). -/
def toTriple (e : Entry) : String × String × String :=
  (e.title, e.link, clean_html (getSummaryDefault e))

/-- The filter's per-entry inclusion predicate, as the spec states it. -/
def includePred (start_time : PyDateTime) (keywords : List String) (e : Entry) : Bool :=
  eligibleB e start_time && anyMatchB keywords (searchBuf e)

/-! ### Keyword loader and orchestrator -/

/-- The observable state of an input file: absent, present but unreadable, or
readable with the given lines (line terminators already split off). -/
inductive FileState where
  | missing
  | unreadable
  | content (lines : List String)

/-- Messages printed to the operator, abstracted from the exact wording. -/
inductive Msg where
  | keywordFileNotFound
  | keywordFileReadError
  | rssFileNotFound
  | rssFileReadError
  | noKeywords
  | urlFailed (url : String)
deriving DecidableEq

/-- Python `str.strip()` on a line: drop leading and trailing whitespace. -/
def pyStrip (s : String) : String :=
  ⟨((s.data.dropWhile isSpaceChar).reverse.dropWhile isSpaceChar).reverse⟩

/-- `read_keywords` from lines 67-87: strip each line; on a missing or
unreadable file report and return the empty list.  Returns the keyword list
together with what was printed. -/
def read_keywords (f : FileState) : List String × List Msg :=
  match f with
  | .missing => ([], [.keywordFileNotFound])
  | .unreadable => ([], [.keywordFileReadError])
  | .content lines => (lines.map pyStrip, [])

/-- What `requests.get` + `feedparser.parse` yield for one URL. -/
inductive FetchResult where
  | success (feed : Feed)
  | httpError (code : Nat)
  | transportError

/-- `get_rss_feed` from lines 9-26: on a 200 response return the parsed feed,
on any other status raise; a transport failure is an exception raised by
`requests.get` itself. -/
def get_rss_feed (fr : FetchResult) : Except Unit Feed :=
  match fr with
  | .success feed => .ok feed
  | .httpError _ => .error ()
  | .transportError => .error ()

/-- The body of the per-URL `try` block (lines 119-121): fetch, then filter;
any exception from either step is the per-URL failure. -/
def processUrl (fetch : String → FetchResult) (start_time : PyDateTime)
    (keywords : List String) (url : String) :
    Except Unit (List (String × String × String)) :=
  match get_rss_feed (fetch url) with
  | .error _ => .error ()
  | .ok feed =>
    match get_recent_entries feed start_time keywords with
    | .error _ => .error ()
    | .ok l => .ok l

/-- The block written for one feed with matches (lines 123-128). -/
def renderBlock (url : String) (entries : List (String × String × String)) : List String :=
  ("URL: " ++ url) ::
    entries.flatMap fun t => ["Título: " ++ t.1, "Link: " ++ t.2.1, "Resumo: " ++ t.2.2, ""]

/-- The URL loop of `process_rss_file` (lines 117-131): for each line, strip
it, try fetch + filter; on failure print and continue; on success with a
non-empty result append the block.  Returns (printed messages, URLs
attempted, output lines appended). -/
def runLoop (fetch : String → FetchResult) (start_time : PyDateTime)
    (keywords : List String) : List String → List Msg × List String × List String
  | [] => ([], [], [])
  | line :: rest =>
    let url := pyStrip line
    let r := runLoop fetch start_time keywords rest
    match processUrl fetch start_time keywords url with
    | .error _ => (.urlFailed url :: r.1, url :: r.2.1, r.2.2)
    | .ok es =>
      (r.1, url :: r.2.1, (if es.isEmpty then [] else renderBlock url es) ++ r.2.2)

/-- The run's external environment: the two input files, the network and the
clock (read once, at run start). -/
structure World where
  rssFile : FileState
  keywordFile : FileState
  fetch : String → FetchResult
  now : PyDateTime

/-- Everything a run observably does: what it printed, which URLs it
attempted to fetch, and the output file's lines (`none` when the file was
never created). -/
structure RunResult where
  printed : List Msg
  fetched : List String
  output : Option (List String)

def leapYear (y : Nat) : Bool := y % 4 = 0 && (y % 100 ≠ 0 || y % 400 = 0)

def daysInMonth (y m : Nat) : Nat :=
  if m = 2 then (if leapYear y then 29 else 28)
  else if m = 4 || m = 6 || m = 9 || m = 11 then 30
  else 31

/-- Line 108: `datetime(now.year, now.month, now.day) - timedelta(days=1)`,
i.e. midnight of the day before the run's wall-clock start. -/
def yesterday_midnight (now : PyDateTime) : PyDateTime :=
  if 1 < now.day then ⟨now.year, now.month, now.day - 1, 0, 0, 0⟩
  else if 1 < now.month then
    ⟨now.year, now.month - 1, daysInMonth now.year (now.month - 1), 0, 0, 0⟩
  else ⟨now.year - 1, 12, 31, 0, 0, 0⟩

/-- Left-pad a number with zeros to `w` digits. -/
def padNum (w n : Nat) : String :=
  let s := toString n
  ⟨List.replicate (w - s.length) '0' ++ s.data⟩

/-- `now.strftime("%Y-%m-%d")`. -/
def dateString (now : PyDateTime) : String :=
  padNum 4 now.year ++ "-" ++ padNum 2 now.month ++ "-" ++ padNum 2 now.day

/-- Line 113: the header written when the output file is opened (`\n\n`
yields the header line plus one blank line). -/
def headerLines (now : PyDateTime) : List String :=
  ["Resenha diária do dia " ++ dateString now, ""]

/-- `process_rss_file` from lines 89-133.  Control flow as in the source: the
URL-file existence check comes first; then the keywords are loaded and the
run aborts if none were found; only then is the output file created with its
header, the threshold computed once, and the URL loop run.  A URL file that
exists but cannot be read fails inside the outer `try`, after the header was
already written. -/
def process_rss_file (w : World) : RunResult :=
  match w.rssFile with
  | .missing => ⟨[.rssFileNotFound], [], none⟩
  | .unreadable =>
    let kr := read_keywords w.keywordFile
    if kr.1.isEmpty then ⟨kr.2 ++ [.noKeywords], [], none⟩
    else ⟨kr.2 ++ [.rssFileReadError], [], some (headerLines w.now)⟩
  | .content lines =>
    let kr := read_keywords w.keywordFile
    if kr.1.isEmpty then ⟨kr.2 ++ [.noKeywords], [], none⟩
    else
      let r := runLoop w.fetch (yesterday_midnight w.now) kr.1 lines
      ⟨kr.2 ++ r.1, r.2.1, some (headerLines w.now ++ r.2.2)⟩

/-- Specification-side description of what one URL line contributes to the
output file: a block exactly when fetch + filter succeeded with at least one
match. -/
def lineBlocks (fetch : String → FetchResult) (start_time : PyDateTime)
    (keywords : List String) (line : String) : List String :=
  match processUrl fetch start_time keywords (pyStrip line) with
  | .error _ => []
  | .ok es => if es.isEmpty then [] else renderBlock (pyStrip line) es

/-- The keyword list a run works with. -/
def keywordsOf (w : World) : List String := (read_keywords w.keywordFile).1

/-! ### Predicates about clean text and entity-only text -/

/-- Does the text contain a decodable character reference? -/
def containsEntity : List Char → Bool
  | [] => false
  | c :: cs => (c = '&' && (tryEntity cs).isSome) || containsEntity cs

/-- Does the text contain a `<` that `html.parser` would read as opening a
markup tag? -/
def containsTagStart : List Char → Bool
  | [] => false
  | c :: cs => (c = '<' && tagFollows cs) || containsTagStart cs

/-- Fuel-driven test that `x` is exactly a concatenation of character
references (each starting with `&`) encoding the characters `ds`. -/
def entSeqF : Nat → List Char → List Char → Bool
  | 0, _, _ => false
  | fuel + 1, x, ds =>
    match x with
    | [] => ds.isEmpty
    | c :: cs =>
      if c = '&' then
        match tryEntity cs with
        | some p =>
          match ds with
          | d :: ds2 => p.1 = d && entSeqF fuel (cs.drop p.2) ds2
          | [] => false
        | none => false
      else false

/-- `entSeq x ds`: the text `x` is exactly a concatenation of character
references (each starting with `&`), and `ds` is the sequence of characters
they encode. -/
def entSeq (x ds : List Char) : Bool := entSeqF (x.length + 1) x ds

/-- Equality of `Except` values is decidable componentwise. -/
instance {ε α : Type} [DecidableEq ε] [DecidableEq α] : DecidableEq (Except ε α) :=
  fun a b =>
    match a, b with
    | .ok x, .ok y =>
      if h : x = y then isTrue (by rw [h]) else
        isFalse fun hc => h (Except.ok.inj hc)
    | .error x, .error y =>
      if h : x = y then isTrue (by rw [h]) else
        isFalse fun hc => h (Except.error.inj hc)
    | .ok _, .error _ => isFalse fun hc => Except.noConfusion hc
    | .error _, .ok _ => isFalse fun hc => Except.noConfusion hc

/-! ### Concrete inputs used by the witness theorems -/

/-- A feed with one entry that matches the keyword `Bitcoin` and one that
does not. -/
def feedA : Feed :=
  ⟨[⟨"Bitcoin rises", "http://a/1", some ⟨2026, 10, 12, 5, 0, 0⟩,
      some "<p>Price up &amp; stable</p>"⟩,
    ⟨"Weather report", "http://a/2", some ⟨2026, 10, 12, 6, 0, 0⟩, some "sunny"⟩]⟩

/-- A world for the failure-isolation scenario: the first URL answers 404,
the second succeeds with matching content. -/
def wIso : World :=
  ⟨.content ["u1", "u2"], .content ["Bitcoin"],
    fun u => if u = "u2" then .success feedA else .httpError 404,
    ⟨2026, 10, 12, 15, 0, 0⟩⟩

/-- A world whose keyword file is empty. -/
def wNoKw : World :=
  ⟨.content ["u1"], .content [], fun _ => .success feedA, ⟨2026, 10, 12, 15, 0, 0⟩⟩

/-- A world for the compute-once threshold conjunct. -/
def wOnce : World :=
  ⟨.content ["u1"], .content ["Bitcoin"], fun _ => .success feedA,
    ⟨2026, 10, 12, 15, 0, 0⟩⟩

/-- A world whose single feed trips the invalid-regex exception: the keyword
list has a matching-nothing valid pattern before an invalid one. -/
def wBadRe : World :=
  ⟨.content ["u1"], .content ["nomatch", "("], fun _ => .success feedA,
    ⟨2026, 10, 12, 15, 0, 0⟩⟩

end RSS

/-! ## Theorems -/

namespace RSS

theorem cmpNat_self (a : Nat) : cmpNat a a = .eq := by
  simp [cmpNat]

theorem dtCmp_self (a : PyDateTime) : PyDateTime.cmp a a = .eq := by
  simp [PyDateTime.cmp, cmpNat_self, Ordering.then]

theorem dtGe_self (a : PyDateTime) : dtGe a a = true := by
  simp [dtGe, dtCmp_self]

theorem dtGe_eq_false_of_dtLt (a b : PyDateTime) (h : dtLt a b = true) :
    dtGe a b = false := by
  unfold dtLt at h
  unfold dtGe
  cases hc : PyDateTime.cmp a b <;> simp [hc] at h ⊢

/-- The empty regex matches with no fuel beyond one step. -/
theorem matchR_eps (fuel : Nat) (hf : 0 < fuel) (s : List Char) (i : Nat) (k : Nat → Bool) :
    matchR fuel s .eps i k = k i := by
  cases fuel with
  | zero => omega
  | succ fuel => rfl

/-- The empty pattern searches successfully in every string. -/
theorem searchFrom_eps (s : String) : searchFrom .eps s = true := by
  unfold searchFrom
  rw [List.any_eq_true]
  refine ⟨0, List.mem_range.mpr (by omega), ?_⟩
  rw [matchR_eps]
  simp [matchFuel]

theorem parseRegex_empty : parseRegex "" = .ok .eps := rfl

/-- The empty keyword pattern matches every search buffer. -/
theorem searchStr_empty (content : String) : searchStr "" content = true := by
  simp [searchStr, parseRegex_empty, searchFrom_eps]

/-- If some keyword is the empty string, the disjunction of keyword matches
is true for every buffer. -/
theorem anyMatchB_of_empty_mem (kws : List String) (content : String) (h : "" ∈ kws) :
    anyMatchB kws content = true := by
  rw [anyMatchB, List.any_eq_true]
  exact ⟨"", h, searchStr_empty content⟩

/-- When every keyword compiles, the lazy `any(...)` generator raises nothing
and computes the boolean disjunction of the searches. -/
theorem anyMatch_eq_of_valid (kws : List String) (content : String)
    (hv : ∀ k ∈ kws, (parseRegex k).isOk = true) :
    anyMatch kws content = .ok (anyMatchB kws content) := by
  induction kws with
  | nil => simp [anyMatch, anyMatchB]
  | cons k rest ih =>
    have hk := hv k (List.mem_cons_self k rest)
    cases hp : parseRegex k with
    | error e => simp [hp, Except.isOk, Except.toBool] at hk
    | ok r =>
      have ih2 := ih fun k2 h2 => hv k2 (List.mem_cons_of_mem _ h2)
      simp only [anyMatch, hp, anyMatchB, List.any_cons]
      cases hsr : searchFrom r content with
      | true => simp [searchStr, hp, hsr]
      | false => simp [searchStr, hp, hsr, ih2, anyMatchB]

/-- Characterization of the filter loop: when every time-eligible entry has a
summary and every keyword compiles, the loop returns normally and its result
is exactly the in-order selection of the eligible, keyword-matching entries.
-/
theorem entriesLoop_eq (t : PyDateTime) (kws : List String) (l : List Entry)
    (hs : ∀ e ∈ l, eligibleB e t = true → e.summary.isSome)
    (hv : ∀ k ∈ kws, (parseRegex k).isOk = true) :
    entriesLoop t kws l = .ok ((l.filter (includePred t kws)).map toTriple) := by
  induction l with
  | nil => simp [entriesLoop]
  | cons e rest ih =>
    have ih2 := ih fun e2 h2 => hs e2 (List.mem_cons_of_mem _ h2)
    cases hpub : e.published_parsed with
    | none =>
      have hel : eligibleB e t = false := by simp [eligibleB, hpub]
      simp [entriesLoop, hpub, ih2, List.filter_cons, includePred, hel]
    | some pub =>
      cases hge : dtGe pub t with
      | false =>
        have hel : eligibleB e t = false := by simp [eligibleB, hpub, hge]
        simp [entriesLoop, hpub, hge, ih2, List.filter_cons, includePred, hel]
      | true =>
        have hel : eligibleB e t = true := by simp [eligibleB, hpub, hge]
        obtain ⟨s, hsum⟩ :=
          Option.isSome_iff_exists.mp (hs e (List.mem_cons_self e rest) hel)
        have hbuf : searchBuf e = e.title ++ " " ++ s := by simp [searchBuf, hsum]
        have hAny := anyMatch_eq_of_valid kws (e.title ++ " " ++ s) hv
        simp only [entriesLoop, hpub, hge, if_true, summaryAttr, hsum, hAny]
        cases hm : anyMatchB kws (e.title ++ " " ++ s) with
        | true =>
          have hinc : includePred t kws e = true := by
            simp [includePred, hel, hbuf, hm]
          simp [ih2, List.filter_cons, hinc, toTriple]
        | false =>
          have hinc : includePred t kws e = false := by
            simp [includePred, hbuf, hm]
          simp [ih2, List.filter_cons, hinc]

/-- The output lines the URL loop appends are the per-line blocks, in file
order. -/
theorem runLoop_output (fetch : String → FetchResult) (t : PyDateTime)
    (kws : List String) (ls : List String) :
    (runLoop fetch t kws ls).2.2 = ls.flatMap (lineBlocks fetch t kws) := by
  induction ls with
  | nil => simp [runLoop]
  | cons line rest ih =>
    simp only [runLoop, List.flatMap_cons]
    cases h : processUrl fetch t kws (pyStrip line) <;> simp [h, ih, lineBlocks]

/-- Every line of the URL file is attempted: the loop never aborts early. -/
theorem runLoop_fetched (fetch : String → FetchResult) (t : PyDateTime)
    (kws : List String) (ls : List String) :
    (runLoop fetch t kws ls).2.1 = ls.map pyStrip := by
  induction ls with
  | nil => simp [runLoop]
  | cons line rest ih =>
    simp only [runLoop, List.map_cons]
    cases h : processUrl fetch t kws (pyStrip line) <;> simp [h, ih]

/-- A failing URL is reported, with that URL. -/
theorem runLoop_failure_reported (fetch : String → FetchResult) (t : PyDateTime)
    (kws : List String) (ls : List String) (line : String) (hmem : line ∈ ls)
    (herr : processUrl fetch t kws (pyStrip line) = .error ()) :
    Msg.urlFailed (pyStrip line) ∈ (runLoop fetch t kws ls).1 := by
  induction ls with
  | nil => simp at hmem
  | cons hd rest ih =>
    rcases List.mem_cons.mp hmem with heq | htail
    · subst heq
      simp only [runLoop, herr]
      exact List.mem_cons_self _ _
    · have ihm := ih htail
      simp only [runLoop]
      cases h : processUrl fetch t kws (pyStrip hd) <;> simp [ihm]

/-- A decoding pass leaves text without decodable references (and, when
stripping, without tag-opening `<`) unchanged, for any sufficient fuel. -/
theorem scanHtmlF_eq_self (fuel : Nat) :
    ∀ (b : Bool) (l : List Char), l.length < fuel → containsEntity l = false →
      (containsTagStart l = false ∨ b = false) → scanHtmlF fuel b l = l := by
  induction fuel with
  | zero => intro b l hf _ _; omega
  | succ fuel ih =>
    intro b l hf he ht
    cases l with
    | nil => rfl
    | cons c cs =>
      have he2 : (c = '&' && (tryEntity cs).isSome) = false ∧ containsEntity cs = false := by
        have := he
        simp only [containsEntity, Bool.or_eq_false_iff] at this
        exact this
      have ht2 : (c = '<' && tagFollows cs) = false ∨ b = false := by
        rcases ht with ht | ht
        · simp only [containsTagStart, Bool.or_eq_false_iff] at ht
          exact Or.inl ht.1
        · exact Or.inr ht
      have ht3 : containsTagStart cs = false ∨ b = false := by
        rcases ht with ht | ht
        · simp only [containsTagStart, Bool.or_eq_false_iff] at ht
          exact Or.inl ht.2
        · exact Or.inr ht
      have hcs : cs.length < fuel := by
        simp only [List.length_cons] at hf
        omega
      have ihc := ih b cs hcs he2.2 ht3
      rw [scanHtmlF]
      have hguard : (b && (c = '<' && tagFollows cs)) = false := by
        rcases ht2 with h | h <;> simp [h]
      rw [hguard]
      simp only [Bool.false_eq_true, if_false]
      by_cases hc : c = '&'
      · have : (tryEntity cs).isSome = false := by
          rcases Bool.and_eq_false_iff.mp he2.1 with h | h
          · simp [hc] at h
          · exact h
        cases hent : tryEntity cs with
        | some v => simp [hent] at this
        | none => simp [hc, hent, ihc]
      · simp [hc, ihc]

/-- A decoding pass leaves text without decodable references (and, when
stripping, without tag-opening `<`) unchanged. -/
theorem scanHtml_eq_self (b : Bool) (l : List Char) (he : containsEntity l = false)
    (ht : containsTagStart l = false ∨ b = false) : scanHtml b l = l :=
  scanHtmlF_eq_self (l.length + 1) b l (by omega) he ht

/-- Decoding a pure concatenation of character references yields the encoded
characters, in either mode (the `<` guard never fires because every position
the scanner visits starts a reference). -/
theorem scanHtmlF_of_entSeqF (fx : Nat) :
    ∀ (fs : Nat) (b : Bool) (x ds : List Char), x.length < fs →
      entSeqF fx x ds = true → scanHtmlF fs b x = ds := by
  induction fx with
  | zero => intro fs b x ds hf h; exact absurd h (by simp [entSeqF])
  | succ fx ih =>
    intro fs b x ds hf h
    cases fs with
    | zero => omega
    | succ fs =>
      cases x with
      | nil =>
        simp only [entSeqF, List.isEmpty_iff] at h
        subst h
        rfl
      | cons c cs =>
        rw [entSeqF] at h
        by_cases hc : c = '&'
        · rw [if_pos hc] at h
          cases hent : tryEntity cs with
          | none => rw [hent] at h; simp at h
          | some v =>
            rw [hent] at h
            obtain ⟨d2, m⟩ := v
            cases ds with
            | nil => simp at h
            | cons d ds2 =>
              simp only [Bool.and_eq_true, decide_eq_true_eq] at h
              obtain ⟨hd2, hrec⟩ := h
              subst hc
              rw [scanHtmlF]
              have hlt : ('&' = '<') = False := by simp
              simp only [hlt, decide_False, Bool.false_and, Bool.and_false,
                Bool.false_eq_true, if_false, decide_True, if_true, hent]
              have hdl : (cs.drop m).length < fs := by
                simp only [List.length_cons] at hf
                simp only [List.length_drop]
                omega
              rw [ih fs b (cs.drop m) ds2 hdl hrec, hd2]
        · rw [if_neg hc] at h
          simp at h

/-- Decoding a pure concatenation of character references yields the encoded
characters, in either mode. -/
theorem scanHtml_of_entSeq (b : Bool) (x ds : List Char) (h : entSeq x ds = true) :
    scanHtml b x = ds :=
  scanHtmlF_of_entSeqF (x.length + 1) (x.length + 1) b x ds (by omega) h

/-- If no keyword before the invalid pattern matches the buffer, the lazy
`any(...)` reaches the invalid pattern and raises `re.error`. -/
theorem anyMatch_error_of_nomatch (pre post : List String) (bad : String) (buf : String)
    (hpre : ∀ k ∈ pre, (parseRegex k).isOk = true ∧ searchStr k buf = false)
    (hbad : (parseRegex bad).isOk = false) :
    anyMatch (pre ++ bad :: post) buf = .error .reError := by
  induction pre with
  | nil =>
    cases hp : parseRegex bad with
    | error e => simp [anyMatch, hp]
    | ok r => simp [hp, Except.isOk, Except.toBool] at hbad
  | cons k pre2 ih =>
    obtain ⟨hok, hsf⟩ := hpre k (List.mem_cons_self k pre2)
    cases hp : parseRegex k with
    | error e => simp [hp, Except.isOk, Except.toBool] at hok
    | ok r =>
      have hsr : searchFrom r buf = false := by
        have := hsf
        simp only [searchStr, hp] at this
        exact this
      simp only [List.cons_append, anyMatch, hp, hsr, Bool.false_eq_true, if_false]
      exact ih fun k2 h2 => hpre k2 (List.mem_cons_of_mem _ h2)

/-- With valid patterns before an invalid one, the lazy `any(...)` either
short-circuits at a match or raises: it never returns `False`. -/
theorem anyMatch_split (pre post : List String) (bad : String) (buf : String)
    (hpre : ∀ k ∈ pre, (parseRegex k).isOk = true)
    (hbad : (parseRegex bad).isOk = false) :
    anyMatch (pre ++ bad :: post) buf = .ok true ∨
      anyMatch (pre ++ bad :: post) buf = .error .reError := by
  induction pre with
  | nil =>
    cases hp : parseRegex bad with
    | error e => right; simp [anyMatch, hp]
    | ok r => simp [hp, Except.isOk, Except.toBool] at hbad
  | cons k pre2 ih =>
    have hok := hpre k (List.mem_cons_self k pre2)
    cases hp : parseRegex k with
    | error e => simp [hp, Except.isOk, Except.toBool] at hok
    | ok r =>
      cases hsr : searchFrom r buf with
      | true => left; simp [anyMatch, hp, hsr]
      | false =>
        simp only [List.cons_append, anyMatch, hp, hsr, Bool.false_eq_true, if_false]
        exact ih fun k2 h2 => hpre k2 (List.mem_cons_of_mem _ h2)

/-- The filter raises `re.error` when the keyword list contains an invalid
pattern and some time-eligible entry is matched by no keyword before it. -/
theorem entriesLoop_error (t : PyDateTime) (pre post : List String) (bad : String)
    (l : List Entry)
    (hs : ∀ e ∈ l, eligibleB e t = true → e.summary.isSome)
    (hpre : ∀ k ∈ pre, (parseRegex k).isOk = true)
    (hbad : (parseRegex bad).isOk = false)
    (hex : ∃ e ∈ l, eligibleB e t = true ∧ ∀ k ∈ pre, searchStr k (searchBuf e) = false) :
    entriesLoop t (pre ++ bad :: post) l = .error .reError := by
  induction l with
  | nil => simp at hex
  | cons e rest ih =>
    have hs2 : ∀ e2 ∈ rest, eligibleB e2 t = true → e2.summary.isSome :=
      fun e2 h2 => hs e2 (List.mem_cons_of_mem _ h2)
    obtain ⟨ew, hmem, helw, hnom⟩ := hex
    cases hpub : e.published_parsed with
    | none =>
      have hel : eligibleB e t = false := by simp [eligibleB, hpub]
      have hrest : ew ∈ rest := by
        rcases List.mem_cons.mp hmem with heq | htail
        · subst heq; rw [helw] at hel; exact absurd hel (by simp)
        · exact htail
      simp only [entriesLoop, hpub]
      exact ih hs2 ⟨ew, hrest, helw, hnom⟩
    | some pub =>
      cases hge : dtGe pub t with
      | false =>
        have hel : eligibleB e t = false := by simp [eligibleB, hpub, hge]
        have hrest : ew ∈ rest := by
          rcases List.mem_cons.mp hmem with heq | htail
          · subst heq; rw [helw] at hel; exact absurd hel (by simp)
          · exact htail
        simp only [entriesLoop, hpub, hge, Bool.false_eq_true, if_false]
        exact ih hs2 ⟨ew, hrest, helw, hnom⟩
      | true =>
        have hel : eligibleB e t = true := by simp [eligibleB, hpub, hge]
        obtain ⟨s, hsum⟩ :=
          Option.isSome_iff_exists.mp (hs e (List.mem_cons_self e rest) hel)
        have hbuf : searchBuf e = e.title ++ " " ++ s := by simp [searchBuf, hsum]
        rcases anyMatch_split pre post bad (e.title ++ " " ++ s) hpre hbad with hok | herr
        · -- the head entry is included; the erroring entry must be further on
          have hrest : ew ∈ rest := by
            rcases List.mem_cons.mp hmem with heq | htail
            · subst heq
              have := anyMatch_error_of_nomatch pre post bad (searchBuf ew)
                (fun k hk => ⟨hpre k hk, hnom k hk⟩) hbad
              rw [hbuf] at this
              rw [this] at hok
              exact absurd hok (by simp)
            · exact htail
          have hrec := ih hs2 ⟨ew, hrest, helw, hnom⟩
          simp [entriesLoop, hpub, hge, summaryAttr, hsum, hok, hrec]
        · simp [entriesLoop, hpub, hge, summaryAttr, hsum, herr]

/-- Characterization of a full run over a readable URL file with a non-empty
keyword list: the output file is the header plus the per-line blocks, every
line is attempted, and every failing line is reported with its URL. -/
theorem process_run (w : World) (lines : List String)
    (hrss : w.rssFile = .content lines) (hkw : keywordsOf w ≠ []) :
    (process_rss_file w).output = some (headerLines w.now ++
      lines.flatMap (lineBlocks w.fetch (yesterday_midnight w.now) (keywordsOf w)))
    ∧ (process_rss_file w).fetched = lines.map pyStrip
    ∧ ∀ line ∈ lines,
        processUrl w.fetch (yesterday_midnight w.now) (keywordsOf w) (pyStrip line) =
          .error () →
        Msg.urlFailed (pyStrip line) ∈ (process_rss_file w).printed := by
  obtain ⟨rss, kwf, fetch, now⟩ := w
  change rss = FileState.content lines at hrss
  subst hrss
  simp only [keywordsOf] at hkw ⊢
  have hne : (read_keywords kwf).1.isEmpty = false := by
    cases hl : (read_keywords kwf).1 with
    | nil => exact absurd hl hkw
    | cons a l => simp
  refine ⟨?_, ?_, ?_⟩
  · simp [process_rss_file, hne, runLoop_output]
  · simp [process_rss_file, hne, runLoop_fetched]
  · intro line hmem herr
    simp only [process_rss_file, hne, Bool.false_eq_true, if_false, List.mem_append]
    exact Or.inr (runLoop_failure_reported fetch (yesterday_midnight now)
      (read_keywords kwf).1 lines line hmem herr)

/-! ### Claim theorems -/

/-- C1.  For every parsed feed, threshold and keyword list (on runs where the
filter returns normally: every time-eligible entry carries a summary and
every keyword compiles), the filter's result is exactly the in-order
selection of the entries that are time-eligible and whose title+summary
buffer is matched, case-sensitively and unanchored, by at least one keyword
pattern: inclusion iff a keyword matches, each included entry exactly once,
source order preserved. -/
theorem c1_filter_characterization (feed : Feed) (t : PyDateTime) (kws : List String)
    (hs : ∀ e ∈ feed.entries, eligibleB e t = true → e.summary.isSome)
    (hv : ∀ k ∈ kws, (parseRegex k).isOk = true) :
    get_recent_entries feed t kws =
      .ok ((feed.entries.filter (includePred t kws)).map toTriple) :=
  entriesLoop_eq t kws feed.entries hs hv

/-- Witness for C1 at a concrete feed and keyword list. -/
theorem c1_witness :
    (∀ e ∈ feedA.entries, eligibleB e ⟨2026, 10, 11, 0, 0, 0⟩ = true → e.summary.isSome)
    ∧ (∀ k ∈ ["Bitcoin"], (parseRegex k).isOk = true)
    ∧ get_recent_entries feedA ⟨2026, 10, 11, 0, 0, 0⟩ ["Bitcoin"] =
        .ok ((feedA.entries.filter (includePred ⟨2026, 10, 11, 0, 0, 0⟩ ["Bitcoin"])).map
          toTriple) :=
  ⟨by decide, by decide,
    c1_filter_characterization feedA ⟨2026, 10, 11, 0, 0, 0⟩ ["Bitcoin"]
      (by decide) (by decide)⟩

/-- C2.  The time window: (a) an entry whose parsed publish time is strictly
before the threshold contributes nothing, even when every keyword pattern
matches its buffer; (b) an entry published exactly at the threshold is
included (inclusive lower bound) when a keyword matches; (c) the threshold
used by a run is `yesterday_midnight now`, computed from the wall clock read
once at run start and reused for every feed: each URL line's block in the
output file is computed against that single threshold. -/
theorem c2_time_window :
    (∀ (t : PyDateTime) (kws : List String) (e : Entry) (rest : List Entry) (p : PyDateTime),
      e.published_parsed = some p → dtLt p t = true →
      (∀ k ∈ kws, searchStr k (searchBuf e) = true) →
      entriesLoop t kws (e :: rest) = entriesLoop t kws rest)
    ∧ (∀ (t : PyDateTime) (kws : List String) (e : Entry) (rest : List Entry) (s : String),
      e.published_parsed = some t → e.summary = some s →
      anyMatch kws (e.title ++ " " ++ s) = .ok true →
      entriesLoop t kws (e :: rest) =
        (entriesLoop t kws rest).map fun l => toTriple e :: l)
    ∧ (∀ (w : World) (lines : List String), w.rssFile = .content lines →
      keywordsOf w ≠ [] →
      (process_rss_file w).output = some (headerLines w.now ++
        lines.flatMap (lineBlocks w.fetch (yesterday_midnight w.now) (keywordsOf w)))) := by
  refine ⟨?_, ?_, ?_⟩
  · intro t kws e rest p hpub hlt _
    have hge := dtGe_eq_false_of_dtLt p t hlt
    simp [entriesLoop, hpub, hge]
  · intro t kws e rest s hpub hsum hany
    simp only [entriesLoop, hpub, dtGe_self, if_true, summaryAttr, hsum, hany]
    cases hr : entriesLoop t kws rest <;> simp [Except.map, toTriple]
  · intro w lines hrss hkw
    obtain ⟨rss, kwf, fetch, now⟩ := w
    change rss = FileState.content lines at hrss
    subst hrss
    simp only [keywordsOf] at hkw ⊢
    have hne : (read_keywords kwf).1.isEmpty = false := by
      cases hl : (read_keywords kwf).1 with
      | nil => exact absurd hl hkw
      | cons a l => simp
    simp [process_rss_file, hne, runLoop_output]

/-- Witness for C2: all three conjuncts at concrete inputs. -/
theorem c2_witness :
    (entriesLoop ⟨2026, 10, 12, 0, 0, 0⟩ ["x"]
        [⟨"x late", "L", some ⟨2026, 10, 11, 23, 59, 59⟩, some "x"⟩] =
      entriesLoop ⟨2026, 10, 12, 0, 0, 0⟩ ["x"] [])
    ∧ (entriesLoop ⟨2026, 10, 12, 0, 0, 0⟩ ["T"]
        [⟨"T exact", "L", some ⟨2026, 10, 12, 0, 0, 0⟩, some "s"⟩] =
      (entriesLoop ⟨2026, 10, 12, 0, 0, 0⟩ ["T"] []).map fun l =>
        toTriple ⟨"T exact", "L", some ⟨2026, 10, 12, 0, 0, 0⟩, some "s"⟩ :: l)
    ∧ (process_rss_file wOnce).output = some (headerLines wOnce.now ++
        ["u1"].flatMap (lineBlocks wOnce.fetch (yesterday_midnight wOnce.now)
          (keywordsOf wOnce))) :=
  ⟨c2_time_window.1 ⟨2026, 10, 12, 0, 0, 0⟩ ["x"]
      ⟨"x late", "L", some ⟨2026, 10, 11, 23, 59, 59⟩, some "x"⟩ []
      ⟨2026, 10, 11, 23, 59, 59⟩ rfl (by decide) (by decide),
    c2_time_window.2.1 ⟨2026, 10, 12, 0, 0, 0⟩ ["T"]
      ⟨"T exact", "L", some ⟨2026, 10, 12, 0, 0, 0⟩, some "s"⟩ [] "s" rfl rfl (by decide),
    c2_time_window.2.2 wOnce ["u1"] rfl (by decide)⟩

/-- C3.  The claim says an entry without a summary still reaches the
storage step and yields a `MatchedEntry` with the placeholder
`"No summary available"`.  The code cannot: line 46 evaluates
`entry.title + " " + entry.summary` before the keyword test, so a
summary-less, time-eligible entry raises `AttributeError` there, the
placeholder branch of line 48 is unreachable for it, and the whole feed
fails.  This theorem evaluates the code at such an entry. -/
theorem c3_missing_summary_raises :
    get_recent_entries
        ⟨[⟨"Bitcoin rises", "http://a/1", some ⟨2026, 10, 12, 5, 0, 0⟩, none⟩]⟩
        ⟨2026, 10, 11, 0, 0, 0⟩ ["Bitcoin"] = .error .attrError := by
  decide

/-- C4.  A feed none of whose entries carries a parseable publish timestamp
filters to the empty match sequence, whatever the keywords and the entries'
title and summary content. -/
theorem c4_no_timestamps_empty (feed : Feed) (t : PyDateTime) (kws : List String)
    (h : ∀ e ∈ feed.entries, e.published_parsed = none) :
    get_recent_entries feed t kws = .ok [] := by
  obtain ⟨l⟩ := feed
  simp only [get_recent_entries] at *
  induction l with
  | nil => simp [entriesLoop]
  | cons e rest ih =>
    have hpub : e.published_parsed = none := h e (List.mem_cons_self e rest)
    simp only [entriesLoop, hpub]
    exact ih fun e2 h2 => h e2 (List.mem_cons_of_mem _ h2)

/-- Witness for C4: a feed with a timestamp-less entry whose text contains
the keyword. -/
theorem c4_witness :
    (∀ e ∈ (⟨[⟨"Bitcoin rises", "L", none, some "Bitcoin"⟩]⟩ : Feed).entries,
      e.published_parsed = none)
    ∧ get_recent_entries ⟨[⟨"Bitcoin rises", "L", none, some "Bitcoin"⟩]⟩
        ⟨2026, 10, 11, 0, 0, 0⟩ ["Bitcoin"] = .ok [] :=
  ⟨by decide,
    c4_no_timestamps_empty ⟨[⟨"Bitcoin rises", "L", none, some "Bitcoin"⟩]⟩
      ⟨2026, 10, 11, 0, 0, 0⟩ ["Bitcoin"] (by decide)⟩

/-- C5.  When the keyword file yields zero keywords the run aborts before
fetching any feed and creates no output file; when the URL file existence
check did not already end the run, the zero-keyword condition is reported. -/
theorem c5_zero_keywords_aborts (w : World) (h : keywordsOf w = []) :
    (process_rss_file w).fetched = [] ∧ (process_rss_file w).output = none ∧
      (w.rssFile ≠ FileState.missing → Msg.noKeywords ∈ (process_rss_file w).printed) := by
  obtain ⟨rss, kwf, fetch, now⟩ := w
  simp only [keywordsOf] at h
  have hempty : (read_keywords kwf).1.isEmpty = true := by
    rw [h]
    rfl
  cases rss with
  | missing => exact ⟨rfl, rfl, fun hne => absurd rfl hne⟩
  | unreadable =>
    refine ⟨?_, ?_, fun _ => ?_⟩ <;> simp [process_rss_file, hempty]
  | content lines =>
    refine ⟨?_, ?_, fun _ => ?_⟩ <;> simp [process_rss_file, hempty]

/-- Witness for C5 at a world whose keyword file is empty. -/
theorem c5_witness :
    (process_rss_file wNoKw).fetched = [] ∧ (process_rss_file wNoKw).output = none ∧
      (wNoKw.rssFile ≠ FileState.missing →
        Msg.noKeywords ∈ (process_rss_file wNoKw).printed) :=
  c5_zero_keywords_aborts wNoKw (by decide)

/-- C6.  Per-feed failure isolation: on a run with a readable URL file and a
non-empty keyword list, the output file is the header followed by exactly the
blocks of the feeds whose fetch + filter succeeded with at least one match;
every URL line is attempted (no failure aborts the run); and each failing
URL is reported together with that URL. -/
theorem c6_per_url_isolation (w : World) (lines : List String)
    (hrss : w.rssFile = .content lines) (hkw : keywordsOf w ≠ []) :
    (process_rss_file w).output = some (headerLines w.now ++
      lines.flatMap (lineBlocks w.fetch (yesterday_midnight w.now) (keywordsOf w)))
    ∧ (process_rss_file w).fetched = lines.map pyStrip
    ∧ ∀ line ∈ lines,
        processUrl w.fetch (yesterday_midnight w.now) (keywordsOf w) (pyStrip line) =
          .error () →
        Msg.urlFailed (pyStrip line) ∈ (process_rss_file w).printed :=
  process_run w lines hrss hkw

/-- Witness for C6: one URL answers 404, the other succeeds with a match. -/
theorem c6_witness :
    (process_rss_file wIso).output = some (headerLines wIso.now ++
      ["u1", "u2"].flatMap (lineBlocks wIso.fetch (yesterday_midnight wIso.now)
        (keywordsOf wIso)))
    ∧ (process_rss_file wIso).fetched = ["u1", "u2"].map pyStrip
    ∧ ∀ line ∈ ["u1", "u2"],
        processUrl wIso.fetch (yesterday_midnight wIso.now) (keywordsOf wIso)
          (pyStrip line) = .error () →
        Msg.urlFailed (pyStrip line) ∈ (process_rss_file wIso).printed :=
  c6_per_url_isolation wIso ["u1", "u2"] rfl (by decide)

/-- C7.  The HTML cleaner is idempotent on already-clean input: on a string
with no tag-opening markup and no decodable character reference, both
passes are the identity, so `clean(clean x) = clean x`. -/
theorem c7_clean_html_idempotent (x : String)
    (ht : containsTagStart x.data = false) (he : containsEntity x.data = false) :
    clean_html (clean_html x) = clean_html x := by
  have h1 : scanHtml true x.data = x.data := scanHtml_eq_self true x.data he (Or.inl ht)
  have h2 : scanHtml false x.data = x.data := scanHtml_eq_self false x.data he (Or.inr rfl)
  have hx : clean_html x = x := by
    show (⟨scanHtml false (scanHtml true x.data)⟩ : String) = x
    rw [h1, h2]
  rw [hx, hx]

/-- Witness for C7 on plain text. -/
theorem c7_witness :
    containsTagStart "Price up and stable".data = false
    ∧ containsEntity "Price up and stable".data = false
    ∧ clean_html (clean_html "Price up and stable") = clean_html "Price up and stable" :=
  ⟨by decide, by decide,
    c7_clean_html_idempotent "Price up and stable" (by decide) (by decide)⟩

/-- C8, counterexample.  The claim: for text consisting only of
entity-encoded characters and no tags, `clean` yields the fully decoded
plain text with no residual entity sequences.  It fails: `clean_html`
decodes twice (once in the parser, once in `unescape`), so when the decoded
text itself spells an entity sequence the output is that sequence decoded
again.  Here `x` encodes the five characters `&amp;` one by one, yet
`clean_html x` is `"&"`, not the decoded text `"&amp;"` (which, moreover,
is itself an entity sequence). -/
theorem c8_counterexample :
    entSeq "&#38;&#97;&#109;&#112;&#59;".data "&amp;".data = true
    ∧ clean_html "&#38;&#97;&#109;&#112;&#59;" ≠ "&amp;" := by
  refine ⟨by decide, by decide⟩

/-- C8, amended.  For text consisting only of entity-encoded characters
(and hence no tags), whose decoded form does not itself contain an entity
sequence, `clean` yields the fully decoded plain text, and no entity
sequence remains in the output. -/
theorem c8_entities_fully_decoded (x d : List Char) (hx : entSeq x d = true)
    (hd : containsEntity d = false) :
    clean_html ⟨x⟩ = (⟨d⟩ : String)
    ∧ containsEntity (clean_html (⟨x⟩ : String)).data = false := by
  have h1 : scanHtml true x = d := scanHtml_of_entSeq true x d hx
  have h2 : scanHtml false d = d := scanHtml_eq_self false d hd (Or.inr rfl)
  have hc : clean_html ⟨x⟩ = (⟨d⟩ : String) := by
    show (⟨scanHtml false (scanHtml true x)⟩ : String) = _
    rw [h1, h2]
  refine ⟨hc, ?_⟩
  rw [hc]
  exact hd

/-- Witness for the amended C8. -/
theorem c8_witness :
    clean_html ⟨"&#66;&#116;&#99;".data⟩ = (⟨"Btc".data⟩ : String)
    ∧ containsEntity (clean_html (⟨"&#66;&#116;&#99;".data⟩ : String)).data = false :=
  c8_entities_fully_decoded "&#66;&#116;&#99;".data "Btc".data (by decide) (by decide)

/-- C9.  When the keyword list contains the empty string (a blank keyword
file line survives as `""` after stripping) — and the list is otherwise
well-formed: every pattern compiles and eligible entries carry summaries —
every time-eligible entry is included regardless of its title and summary
content, because the empty pattern matches every buffer. -/
theorem c9_empty_keyword_includes_all (feed : Feed) (t : PyDateTime) (kws : List String)
    (hmem : "" ∈ kws)
    (hv : ∀ k ∈ kws, (parseRegex k).isOk = true)
    (hs : ∀ e ∈ feed.entries, eligibleB e t = true → e.summary.isSome) :
    get_recent_entries feed t kws =
      .ok ((feed.entries.filter fun e => eligibleB e t).map toTriple) := by
  rw [get_recent_entries, entriesLoop_eq t kws feed.entries hs hv]
  have hfil : feed.entries.filter (includePred t kws) =
      feed.entries.filter fun e => eligibleB e t :=
    List.filter_congr fun e _ => by
      simp [includePred, anyMatchB_of_empty_mem kws (searchBuf e) hmem]
  rw [hfil]

/-- Witness for C9: the entry matches no real keyword, yet is included. -/
theorem c9_witness :
    ("" ∈ ["Bitcoin", ""])
    ∧ get_recent_entries ⟨[⟨"Weather", "L", some ⟨2026, 10, 12, 5, 0, 0⟩, some "sunny"⟩]⟩
        ⟨2026, 10, 11, 0, 0, 0⟩ ["Bitcoin", ""] =
      .ok (((⟨[⟨"Weather", "L", some ⟨2026, 10, 12, 5, 0, 0⟩, some "sunny"⟩]⟩ :
          Feed).entries.filter fun e => eligibleB e ⟨2026, 10, 11, 0, 0, 0⟩).map toTriple) :=
  ⟨by decide,
    c9_empty_keyword_includes_all
      ⟨[⟨"Weather", "L", some ⟨2026, 10, 12, 5, 0, 0⟩, some "sunny"⟩]⟩
      ⟨2026, 10, 11, 0, 0, 0⟩ ["Bitcoin", ""] (by decide) (by decide) (by decide)⟩

/-- C10, counterexample.  The claim says an invalid keyword pattern makes
the filter raise on every feed with a time-eligible entry.  It does not:
`any(...)` is lazy, so when a keyword before the invalid one matches, the
generator short-circuits and the invalid pattern is never compiled.  Here
the keyword list is `["", "("]` — `"("` is invalid, yet the feed filters
successfully because `""` matches first. -/
theorem c10_counterexample :
    (parseRegex "(").isOk = false
    ∧ eligibleB ⟨"T", "L", some ⟨2026, 10, 12, 5, 0, 0⟩, some "S"⟩
        ⟨2026, 10, 11, 0, 0, 0⟩ = true
    ∧ get_recent_entries ⟨[⟨"T", "L", some ⟨2026, 10, 12, 5, 0, 0⟩, some "S"⟩]⟩
        ⟨2026, 10, 11, 0, 0, 0⟩ ["", "("] = .ok [("T", "L", "S")] :=
  ⟨by decide, by decide, by decide⟩

/-- C10, amended.  (1) With an invalid pattern in the keyword list, the
filter raises `re.error` on each feed that has a time-eligible entry (with a
summary) whose search buffer is matched by no keyword preceding the invalid
pattern.  (2) On a run, such a feed's URL is reported as failed, the feed
contributes no block, and the run still completes, writing the report file
with at least its header. -/
theorem c10_invalid_keyword_raises :
    (∀ (t : PyDateTime) (feed : Feed) (pre post : List String) (bad : String),
      (parseRegex bad).isOk = false →
      (∀ k ∈ pre, (parseRegex k).isOk = true) →
      (∀ e ∈ feed.entries, eligibleB e t = true → e.summary.isSome) →
      (∃ e ∈ feed.entries, eligibleB e t = true ∧
        ∀ k ∈ pre, searchStr k (searchBuf e) = false) →
      get_recent_entries feed t (pre ++ bad :: post) = .error .reError)
    ∧ (∀ (w : World) (lines : List String) (line : String) (feed : Feed)
        (pre post : List String) (bad : String),
      w.rssFile = .content lines → line ∈ lines →
      keywordsOf w = pre ++ bad :: post →
      w.fetch (pyStrip line) = .success feed →
      (parseRegex bad).isOk = false →
      (∀ k ∈ pre, (parseRegex k).isOk = true) →
      (∀ e ∈ feed.entries, eligibleB e (yesterday_midnight w.now) = true →
        e.summary.isSome) →
      (∃ e ∈ feed.entries, eligibleB e (yesterday_midnight w.now) = true ∧
        ∀ k ∈ pre, searchStr k (searchBuf e) = false) →
      Msg.urlFailed (pyStrip line) ∈ (process_rss_file w).printed
      ∧ lineBlocks w.fetch (yesterday_midnight w.now) (keywordsOf w) line = []
      ∧ ∃ out, (process_rss_file w).output = some (headerLines w.now ++ out)) := by
  constructor
  · intro t feed pre post bad hbad hpre hs hex
    exact entriesLoop_error t pre post bad feed.entries hs hpre hbad hex
  · intro w lines line feed pre post bad hrss hmem hkws hfetch hbad hpre hs hex
    have hfil : get_recent_entries feed (yesterday_midnight w.now) (pre ++ bad :: post) =
        .error .reError :=
      entriesLoop_error (yesterday_midnight w.now) pre post bad feed.entries hs hpre hbad hex
    have herr : processUrl w.fetch (yesterday_midnight w.now) (keywordsOf w)
        (pyStrip line) = .error () := by
      simp [processUrl, hfetch, get_rss_feed, hkws, hfil]
    have hkwne : keywordsOf w ≠ [] := by
      rw [hkws]
      exact List.append_ne_nil_of_right_ne_nil _ (by simp)
    have hrun := process_run w lines hrss hkwne
    refine ⟨hrun.2.2 line hmem herr, ?_, ⟨_, hrun.1⟩⟩
    simp [lineBlocks, herr]

/-- Witness for the amended C10: the valid keyword `nomatch` matches
nothing, so the lazy generator reaches the invalid `"("` and the feed
fails, while the run still writes the report. -/
theorem c10_witness :
    get_recent_entries feedA ⟨2026, 10, 11, 0, 0, 0⟩ ["nomatch", "("] = .error .reError
    ∧ (Msg.urlFailed (pyStrip "u1") ∈ (process_rss_file wBadRe).printed
      ∧ lineBlocks wBadRe.fetch (yesterday_midnight wBadRe.now) (keywordsOf wBadRe) "u1" = []
      ∧ ∃ out, (process_rss_file wBadRe).output =
          some (headerLines wBadRe.now ++ out)) :=
  ⟨c10_invalid_keyword_raises.1 ⟨2026, 10, 11, 0, 0, 0⟩ feedA ["nomatch"] [] "("
      (by decide) (by decide) (by decide) (by decide),
    c10_invalid_keyword_raises.2 wBadRe ["u1"] "u1" feedA ["nomatch"] [] "("
      rfl (by decide) (by decide) rfl (by decide) (by decide) (by decide) (by decide)⟩

end RSS
